import Mathlib

/-!
Verification of the vertex-drag / element-picker logic of the 3D scene
editor (src/components/Scene.tsx).

Shallow embedding conventions:
* Float64 coordinates are modelled as exact rationals (ℚ).
* The three.js vector / ray / plane helpers used by the component are
  embedded in the namespace Three, following the library's documented
  semantics (Ray.intersectPlane leaves its target argument unwritten and
  returns null when the ray does not meet the plane; the caller in
  Scene.tsx ignores the null and keeps using the freshly allocated
  target, which is the zero vector).
* The mutable refs of the DraggableVertex component (dragStart, the
  OrbitControls enabled toggle) are gathered in DragState; the mesh's
  position attribute and the number of computeVertexNormals calls are
  gathered in MeshState.
* applyMatrix4 with the inverted world matrix is abstracted as a
  parameter worldToLocal : Vec3 → Vec3; the instantiations in concrete
  theorems use the identity world transform.
-/

structure Vec3 where
  x : ℚ
  y : ℚ
  z : ℚ
deriving DecidableEq

def Vec3.add (a b : Vec3) : Vec3 := ⟨a.x + b.x, a.y + b.y, a.z + b.z⟩

def Vec3.sub (a b : Vec3) : Vec3 := ⟨a.x - b.x, a.y - b.y, a.z - b.z⟩

def Vec3.neg (a : Vec3) : Vec3 := ⟨-a.x, -a.y, -a.z⟩

def Vec3.dot (a b : Vec3) : ℚ := a.x * b.x + a.y * b.y + a.z * b.z

def Vec3.smul (t : ℚ) (v : Vec3) : Vec3 := ⟨t * v.x, t * v.y, t * v.z⟩

namespace Three

structure Ray where
  origin : Vec3
  direction : Vec3
deriving DecidableEq

structure Plane where
  normal : Vec3
  constant : ℚ
deriving DecidableEq

/-- three.js Plane.distanceToPoint: normal.dot(point) + constant. -/
def Plane.distanceToPoint (p : Plane) (point : Vec3) : ℚ :=
  Vec3.dot p.normal point + p.constant

/-- three.js Ray.at: origin + t * direction. -/
def Ray.pointAt (r : Ray) (t : ℚ) : Vec3 :=
  Vec3.add r.origin (Vec3.smul t r.direction)

/-- three.js Ray.distanceToPlane: none models the null return (parallel
ray off the plane, or an intersection behind the ray origin). -/
def Ray.distanceToPlane (r : Ray) (p : Plane) : Option ℚ :=
  let denominator := Vec3.dot p.normal r.direction
  if denominator = 0 then
    if p.distanceToPoint r.origin = 0 then some 0 else none
  else
    let t := -(Vec3.dot r.origin p.normal + p.constant) / denominator
    if 0 ≤ t then some t else none

/-- three.js Ray.intersectPlane(plane, target): on success the target is
overwritten with the hit point; on failure the function returns null and
the target keeps its previous contents.  The result here is the value the
caller's target variable holds after the call. -/
def Ray.intersectPlane (r : Ray) (p : Plane) (target : Vec3) : Vec3 :=
  match r.distanceToPlane p with
  | none => target
  | some t => r.pointAt t

end Three

/-- The per-component tolerance test of Scene.tsx onPointerMove lines
52-54: every component of the vertex differs from dragStart by strictly
less than 0.001. -/
def isCoincident (dragStart v : Vec3) : Bool :=
  decide (abs (v.x - dragStart.x) < 1 / 1000) &&
  decide (abs (v.y - dragStart.y) < 1 / 1000) &&
  decide (abs (v.z - dragStart.z) < 1 / 1000)

/-- The welding loop of Scene.tsx onPointerMove lines 50-57: every buffer
entry coincident with dragStart is overwritten with localPosition. -/
def updateConnectedVertices (posAttr : List Vec3) (dragStart localPosition : Vec3) : List Vec3 :=
  posAttr.map (fun v => if isCoincident dragStart v then localPosition else v)

/-- The mutable refs of the DraggableVertex component: the drag anchor
(dragStart ref) and the enabled toggle the handlers write to the orbit
controls. -/
structure DragState where
  dragStart : Option Vec3
  orbitEnabled : Bool
deriving DecidableEq

/-- The selected mesh's geometry: the position buffer attribute and the
number of computeVertexNormals recomputations performed on it. -/
structure MeshState where
  posAttr : List Vec3
  normalsVersion : ℕ
deriving DecidableEq

namespace DraggableVertex

/-- The projection plane of Scene.tsx lines 38-39: it passes through the
handle's position and faces the camera.  The source normalizes the
normal vector; the embedding keeps the unnormalized camera-minus-position
vector, which is a positive scalar multiple of the normalized one, and
the theorem dragPlane_scale_invariant below shows Ray.intersectPlane is
unchanged by such a rescaling of (normal, constant). -/
def dragPlane (cameraPosition position : Vec3) : Three.Plane :=
  ⟨Vec3.sub cameraPosition position, -(Vec3.dot position (Vec3.sub cameraPosition position))⟩

/-- Scene.tsx lines 15-23: a press captures the anchor and disables the
orbit controls only when the handle is selected; otherwise nothing
happens. -/
def onPointerDown (selected : Bool) (position : Vec3) (s : DragState) : DragState :=
  if selected then ⟨some position, false⟩ else s

/-- Scene.tsx lines 25-63: when an anchor is live and the handle is
selected, intersect the pointer ray with the camera-facing plane through
the handle position (the zero vector standing in for the target that
three.js leaves unwritten on a missed intersection), convert to local
space, overwrite every vertex coincident with the anchor, recompute the
normals, and advance the anchor to the written position.  The
positionAttribute and mesh.current null checks of line 26 are modelled
as always passing, the geometry being part of the state. -/
def onPointerMove (selected : Bool) (ray : Three.Ray) (cameraPosition position : Vec3)
    (worldToLocal : Vec3 → Vec3) (s : DragState) (m : MeshState) : DragState × MeshState :=
  match s.dragStart with
  | none => (s, m)
  | some a =>
    if selected then
      let intersectionPoint := Three.Ray.intersectPlane ray (dragPlane cameraPosition position) ⟨0, 0, 0⟩
      let localPosition := worldToLocal intersectionPoint
      (⟨some localPosition, s.orbitEnabled⟩,
       ⟨updateConnectedVertices m.posAttr a localPosition, m.normalsVersion + 1⟩)
    else (s, m)

/-- Scene.tsx lines 65-70: release clears the anchor and re-enables the
orbit controls; the geometry is not touched. -/
def onPointerUp (s : DragState) (m : MeshState) : DragState × MeshState :=
  (⟨none, true⟩, m)

end DraggableVertex

/-- Scene.tsx line 111: the dedup key of a world-space vertex is its
three coordinates formatted with toFixed(4); modelled as rounding each
coordinate times 10^4 to the nearest integer. -/
def toFixed4 (q : ℚ) : ℤ := round (q * 10000)

def vertexKey (v : Vec3) : ℤ × ℤ × ℤ := (toFixed4 v.x, toFixed4 v.y, toFixed4 v.z)

/-- The unique-vertices loop of Scene.tsx MeshHelpers lines 104-117: scan
the world-space vertices in ascending buffer order, keeping a vertex (and
its buffer index) only when its rounded key has not been seen before. -/
def dedupScan : ℕ → List Vec3 → List (ℤ × ℤ × ℤ) → List (Vec3 × ℕ)
  | _, [], _ => []
  | i, v :: rest, seen =>
    if vertexKey v ∈ seen then dedupScan (i + 1) rest seen
    else (v, i) :: dedupScan (i + 1) rest (vertexKey v :: seen)

/-- The handle list MeshHelpers derives in vertex edit mode: each element
pairs a handle's world position with the retained underlying buffer
index.  toWorld models applyMatrix4 with the mesh's world matrix
(line 109). -/
def uniqueVertices (buf : List Vec3) (toWorld : Vec3 → Vec3) : List (Vec3 × ℕ) :=
  dedupScan 0 (buf.map toWorld) []

inductive EditMode where
  | object
  | vertex
  | edge
  | face
deriving DecidableEq

/-- Scene.tsx line 206: the enabled prop of the rendered OrbitControls is
editMode === 'object'. -/
def orbitControlsEnabled (editMode : EditMode) : Bool :=
  decide (editMode = EditMode.object)

/-- The Scene-level state the pointer events act on. -/
structure SceneState where
  editMode : EditMode
  drag : DragState
  mesh : MeshState
deriving DecidableEq

/-- A pointer event delivered to a vertex handle: press (with the
handle's selected flag and world position), move (with the pointer ray
and the camera / handle positions the handler reads), or release. -/
inductive PointerEvt where
  | press : Bool → Vec3 → PointerEvt
  | move : Bool → Three.Ray → Vec3 → Vec3 → PointerEvt
  | release : PointerEvt
deriving DecidableEq

def PointerEvt.isMove : PointerEvt → Bool
  | .move _ _ _ _ => true
  | _ => false

/-- Dispatch of a pointer event: the DraggableVertex handlers are mounted
only while MeshHelpers renders the handles, which requires vertex edit
mode (Scene.tsx line 123); in any other mode the event leaves the state
unchanged. -/
def handleEvt (worldToLocal : Vec3 → Vec3) (st : SceneState) : PointerEvt → SceneState
  | .press sel p =>
    if st.editMode = EditMode.vertex then
      ⟨st.editMode, DraggableVertex.onPointerDown sel p st.drag, st.mesh⟩
    else st
  | .move sel r c p =>
    if st.editMode = EditMode.vertex then
      let dm := DraggableVertex.onPointerMove sel r c p worldToLocal st.drag st.mesh
      ⟨st.editMode, dm.1, dm.2⟩
    else st
  | .release =>
    if st.editMode = EditMode.vertex then
      let dm := DraggableVertex.onPointerUp st.drag st.mesh
      ⟨st.editMode, dm.1, dm.2⟩
    else st

def applyEvts (worldToLocal : Vec3 → Vec3) : SceneState → List PointerEvt → SceneState
  | st, [] => st
  | st, e :: es => applyEvts worldToLocal (handleEvt worldToLocal st e) es

/-! ### Supporting lemmas -/

theorem isCoincident_self (v : Vec3) : isCoincident v v = true := by
  simp [isCoincident]

/-- Rescaling the plane's (normal, constant) pair by any nonzero factor,
in particular normalizing the normal as Scene.tsx line 38 does, leaves
the result of Ray.intersectPlane unchanged; this justifies the
unnormalized plane kept by dragPlane. -/
theorem intersectPlane_scale_invariant (r : Three.Ray) (n : Vec3) (c s : ℚ) (hs : s ≠ 0)
    (target : Vec3) :
    Three.Ray.intersectPlane r ⟨Vec3.smul s n, s * c⟩ target
      = Three.Ray.intersectPlane r ⟨n, c⟩ target := by
  have hD : Vec3.dot (Vec3.smul s n) r.direction = s * Vec3.dot n r.direction := by
    simp [Vec3.smul, Vec3.dot]; ring
  have hO : Vec3.dot r.origin (Vec3.smul s n) = s * Vec3.dot r.origin n := by
    simp [Vec3.smul, Vec3.dot]; ring
  have hP : Vec3.dot (Vec3.smul s n) r.origin = s * Vec3.dot n r.origin := by
    simp [Vec3.smul, Vec3.dot]; ring
  unfold Three.Ray.intersectPlane Three.Ray.distanceToPlane Three.Plane.distanceToPoint
  simp only [hD, hO, hP]
  by_cases h0 : Vec3.dot n r.direction = 0
  · have hz : s * Vec3.dot n r.direction = 0 := by rw [h0]; ring
    have hsum : s * Vec3.dot n r.origin + s * c = s * (Vec3.dot n r.origin + c) := by ring
    simp [h0, hz, hsum, mul_eq_zero, hs]
  · have h0' : s * Vec3.dot n r.direction ≠ 0 := mul_ne_zero hs h0
    have ht : (-(s * c) + -(s * Vec3.dot r.origin n)) / (s * Vec3.dot n r.direction)
        = (-c + -(Vec3.dot r.origin n)) / Vec3.dot n r.direction := by
      rw [div_eq_div_iff h0' h0]
      ring
    simp [h0, h0', ht]

theorem dot_comm (a b : Vec3) : Vec3.dot a b = Vec3.dot b a := by
  simp [Vec3.dot]; ring

/-! ### Claims about the vertex dragger -/

/-- Claim C1 (counterexample): a two-event drag session on the buffer
[(0,0,0), (1,0,0)] with identity world transform, camera at (0,0,5) and
the handle at (0,0,0).  Vertex 1 is outside the coincident group of the
session-start anchor (0,0,0) (first conjunct), yet the second move event
of the session changes its buffer entry: the first move carries the
dragged group onto (1,0,0), the anchor is advanced there, and the second
move's welding scan absorbs vertex 1. -/
theorem c1_counterexample :
    isCoincident ⟨0, 0, 0⟩ ⟨1, 0, 0⟩ = false ∧
    (DraggableVertex.onPointerMove true ⟨⟨0, 0, 5⟩, ⟨2, 0, -5⟩⟩ ⟨0, 0, 5⟩ ⟨0, 0, 0⟩ id
        (DraggableVertex.onPointerMove true ⟨⟨0, 0, 5⟩, ⟨1, 0, -5⟩⟩ ⟨0, 0, 5⟩ ⟨0, 0, 0⟩ id
          (DraggableVertex.onPointerDown true ⟨0, 0, 0⟩ ⟨none, true⟩)
          ⟨[⟨0, 0, 0⟩, ⟨1, 0, 0⟩], 0⟩).1
        (DraggableVertex.onPointerMove true ⟨⟨0, 0, 5⟩, ⟨1, 0, -5⟩⟩ ⟨0, 0, 5⟩ ⟨0, 0, 0⟩ id
          (DraggableVertex.onPointerDown true ⟨0, 0, 0⟩ ⟨none, true⟩)
          ⟨[⟨0, 0, 0⟩, ⟨1, 0, 0⟩], 0⟩).2).2.posAttr.get? 1 ≠ some ⟨1, 0, 0⟩ := by
  norm_num [DraggableVertex.onPointerMove, DraggableVertex.onPointerDown,
    DraggableVertex.dragPlane, Three.Ray.intersectPlane, Three.Ray.distanceToPlane,
    Three.Plane.distanceToPoint, Three.Ray.pointAt, Vec3.dot, Vec3.sub, Vec3.add, Vec3.smul,
    updateConnectedVertices, isCoincident, abs_lt, Vec3.mk.injEq]

/-- Claim C1 (amended): each single move event writes localPosition to
exactly the buffer entries coincident with the anchor current at that
event, and leaves every other entry unchanged; since the anchor is
advanced to the written position after each event, only the first event
of a session is guaranteed to target the coincident group of the
session-start anchor. -/
theorem c1_amended_step (buf : List Vec3) (a lp : Vec3) (i : ℕ) (v : Vec3)
    (hv : buf[i]? = some v) :
    (updateConnectedVertices buf a lp)[i]?
      = some (if isCoincident a v then lp else v) := by
  simp [updateConnectedVertices, List.getElem?_map, hv]

theorem c1_amended_step_witness :
    ([⟨0, 0, 0⟩, ⟨1, 0, 0⟩] : List Vec3)[0]? = some ⟨0, 0, 0⟩ ∧
    (updateConnectedVertices [⟨0, 0, 0⟩, ⟨1, 0, 0⟩] ⟨0, 0, 0⟩ ⟨2, 0, 0⟩)[0]?
      = some (if isCoincident ⟨0, 0, 0⟩ ⟨0, 0, 0⟩ then ⟨2, 0, 0⟩ else ⟨0, 0, 0⟩) :=
  ⟨rfl, c1_amended_step [⟨0, 0, 0⟩, ⟨1, 0, 0⟩] ⟨0, 0, 0⟩ ⟨2, 0, 0⟩ 0 ⟨0, 0, 0⟩ rfl⟩

/-- Claim C2 (code bug): for a move event whose pointer ray is parallel
to the projection plane, Ray.distanceToPlane is null (first conjunct),
but the handler never checks the null result of intersectPlane: the
still-zero target vector is converted to local space and written into
the welded group, so the buffer (second conjunct) and the anchor (third
conjunct) both change, contradicting the specified ignore-the-event
behaviour.  Concrete input: anchor and handle at (0,0,1), camera at
(0,0,2), buffer [(0,0,1)], identity world transform, pointer ray with
origin (0,0,2) and direction (1,0,0). -/
theorem c2_parallel_ray_moves_buffer :
    Three.Ray.distanceToPlane ⟨⟨0, 0, 2⟩, ⟨1, 0, 0⟩⟩
      (DraggableVertex.dragPlane ⟨0, 0, 2⟩ ⟨0, 0, 1⟩) = none ∧
    (DraggableVertex.onPointerMove true ⟨⟨0, 0, 2⟩, ⟨1, 0, 0⟩⟩ ⟨0, 0, 2⟩ ⟨0, 0, 1⟩ id
      ⟨some ⟨0, 0, 1⟩, false⟩ ⟨[⟨0, 0, 1⟩], 0⟩).2.posAttr ≠ [⟨0, 0, 1⟩] ∧
    (DraggableVertex.onPointerMove true ⟨⟨0, 0, 2⟩, ⟨1, 0, 0⟩⟩ ⟨0, 0, 2⟩ ⟨0, 0, 1⟩ id
      ⟨some ⟨0, 0, 1⟩, false⟩ ⟨[⟨0, 0, 1⟩], 0⟩).1.dragStart ≠ some ⟨0, 0, 1⟩ := by
  norm_num [DraggableVertex.onPointerMove, DraggableVertex.dragPlane,
    Three.Ray.intersectPlane, Three.Ray.distanceToPlane, Three.Plane.distanceToPoint,
    Three.Ray.pointAt, Vec3.dot, Vec3.sub, Vec3.add, Vec3.smul,
    updateConnectedVertices, isCoincident, abs_lt, Vec3.mk.injEq]

/-- Claim C3 (counterexample): on a live drag over a one-vertex mesh with
normals version 0, the release handler leaves the normals version at 0
(no recomputation is triggered by release), while a single move event
raises it to 1 (recomputation happens per move event). -/
theorem c3_counterexample :
    (DraggableVertex.onPointerUp ⟨some ⟨0, 0, 0⟩, false⟩ ⟨[⟨0, 0, 0⟩], 0⟩).2.normalsVersion = 0 ∧
    (DraggableVertex.onPointerMove true ⟨⟨0, 0, 5⟩, ⟨0, 0, -1⟩⟩ ⟨0, 0, 5⟩ ⟨0, 0, 0⟩ id
      ⟨some ⟨0, 0, 0⟩, false⟩ ⟨[⟨0, 0, 0⟩], 0⟩).2.normalsVersion = 1 := by
  exact ⟨rfl, by simp [DraggableVertex.onPointerMove]⟩

/-- Claim C3 (amended): the release event clears the drag anchor but
performs no normals recomputation and leaves the mesh state untouched;
instead, every processed move event of the session performs exactly one
normals recomputation. -/
theorem c3_amended_release_and_move (s : DragState) (m : MeshState) (a : Vec3)
    (ray : Three.Ray) (cameraPosition position : Vec3) (worldToLocal : Vec3 → Vec3)
    (hs : s.dragStart = some a) :
    (DraggableVertex.onPointerUp s m).1.dragStart = none ∧
    (DraggableVertex.onPointerUp s m).2 = m ∧
    (DraggableVertex.onPointerMove true ray cameraPosition position worldToLocal s m).2.normalsVersion
      = m.normalsVersion + 1 := by
  refine ⟨rfl, rfl, ?_⟩
  simp [DraggableVertex.onPointerMove, hs]

theorem c3_amended_release_and_move_witness :
    (DragState.dragStart ⟨some ⟨1, 2, 3⟩, false⟩ = some ⟨1, 2, 3⟩) ∧
    (DraggableVertex.onPointerUp ⟨some ⟨1, 2, 3⟩, false⟩ ⟨[⟨1, 2, 3⟩], 5⟩).1.dragStart = none ∧
    (DraggableVertex.onPointerUp ⟨some ⟨1, 2, 3⟩, false⟩ ⟨[⟨1, 2, 3⟩], 5⟩).2 = ⟨[⟨1, 2, 3⟩], 5⟩ ∧
    (DraggableVertex.onPointerMove true ⟨⟨0, 0, 5⟩, ⟨0, 0, -1⟩⟩ ⟨0, 0, 5⟩ ⟨0, 0, 0⟩ id
      ⟨some ⟨1, 2, 3⟩, false⟩ ⟨[⟨1, 2, 3⟩], 5⟩).2.normalsVersion = 5 + 1 :=
  ⟨rfl, c3_amended_release_and_move ⟨some ⟨1, 2, 3⟩, false⟩ ⟨[⟨1, 2, 3⟩], 5⟩ ⟨1, 2, 3⟩
    ⟨⟨0, 0, 5⟩, ⟨0, 0, -1⟩⟩ ⟨0, 0, 5⟩ ⟨0, 0, 0⟩ id rfl⟩

/-- Claim C5: a release event while no drag anchor is live (Idle state)
leaves the vertex buffer unchanged and triggers no normals
recomputation. -/
theorem c5_release_idle_noop (s : DragState) (m : MeshState)
    (hidle : s.dragStart = none) :
    (DraggableVertex.onPointerUp s m).2.posAttr = m.posAttr ∧
    (DraggableVertex.onPointerUp s m).2.normalsVersion = m.normalsVersion :=
  ⟨rfl, rfl⟩

theorem c5_release_idle_noop_witness :
    (DragState.dragStart ⟨none, true⟩ = none) ∧
    (DraggableVertex.onPointerUp ⟨none, true⟩ ⟨[⟨7, 8, 9⟩], 3⟩).2.posAttr = [⟨7, 8, 9⟩] ∧
    (DraggableVertex.onPointerUp ⟨none, true⟩ ⟨[⟨7, 8, 9⟩], 3⟩).2.normalsVersion = 3 :=
  ⟨rfl, c5_release_idle_noop ⟨none, true⟩ ⟨[⟨7, 8, 9⟩], 3⟩ rfl⟩

/-- Claim C6: a press on an unselected handle leaves the whole drag state
unchanged (no anchor captured, state remains Idle), while a press on a
selected handle captures the handle position as the anchor. -/
theorem c6_unselected_press_noop (s : DragState) (position : Vec3) :
    DraggableVertex.onPointerDown false position s = s ∧
    (DraggableVertex.onPointerDown true position s).dragStart = some position :=
  ⟨rfl, rfl⟩

/-- Claim C9: after a single welding move event, any two buffer entries
that were within tolerance of the anchor hold the identical written
position localPosition, so the group is exactly coincident after the
step. -/
theorem c9_group_written_identically (buf : List Vec3) (a lp : Vec3) (i j : ℕ) (u v : Vec3)
    (hu : buf[i]? = some u) (hv : buf[j]? = some v)
    (hcu : isCoincident a u = true) (hcv : isCoincident a v = true) :
    (updateConnectedVertices buf a lp)[i]? = some lp ∧
    (updateConnectedVertices buf a lp)[j]? = some lp := by
  constructor <;> simp [updateConnectedVertices, List.getElem?_map, hu, hv, hcu, hcv]

theorem c9_group_written_identically_witness :
    ([⟨0, 0, 0⟩, ⟨1, 0, 0⟩, ⟨1 / 2000, 0, 0⟩] : List Vec3)[0]? = some ⟨0, 0, 0⟩ ∧
    ([⟨0, 0, 0⟩, ⟨1, 0, 0⟩, ⟨1 / 2000, 0, 0⟩] : List Vec3)[2]? = some ⟨1 / 2000, 0, 0⟩ ∧
    isCoincident ⟨0, 0, 0⟩ ⟨0, 0, 0⟩ = true ∧
    isCoincident ⟨0, 0, 0⟩ ⟨1 / 2000, 0, 0⟩ = true ∧
    ((updateConnectedVertices [⟨0, 0, 0⟩, ⟨1, 0, 0⟩, ⟨1 / 2000, 0, 0⟩] ⟨0, 0, 0⟩ ⟨4, 5, 6⟩)[0]?
        = some ⟨4, 5, 6⟩ ∧
      (updateConnectedVertices [⟨0, 0, 0⟩, ⟨1, 0, 0⟩, ⟨1 / 2000, 0, 0⟩] ⟨0, 0, 0⟩ ⟨4, 5, 6⟩)[2]?
        = some ⟨4, 5, 6⟩) := by
  have h1 : isCoincident ⟨0, 0, 0⟩ (⟨0, 0, 0⟩ : Vec3) = true := isCoincident_self _
  have h2 : isCoincident ⟨0, 0, 0⟩ (⟨1 / 2000, 0, 0⟩ : Vec3) = true := by
    simp [isCoincident, abs_lt]
    norm_num
  exact ⟨rfl, rfl, h1, h2,
    c9_group_written_identically [⟨0, 0, 0⟩, ⟨1, 0, 0⟩, ⟨1 / 2000, 0, 0⟩] ⟨0, 0, 0⟩ ⟨4, 5, 6⟩
      0 2 ⟨0, 0, 0⟩ ⟨1 / 2000, 0, 0⟩ rfl rfl h1 h2⟩

theorem vec3_add_neg_cancel (a d : Vec3) : Vec3.add (Vec3.add a d) (Vec3.neg d) = a := by
  cases a; cases d
  simp [Vec3.add, Vec3.neg]

theorem map_fixed_eq_self {α : Type} (f : α → α) :
    ∀ (l : List α), (∀ x ∈ l, f x = x) → l.map f = l := by
  intro l
  induction l with
  | nil => intro _; rfl
  | cons x xs ih =>
    intro h
    rw [List.map_cons, h x (List.mem_cons_self x xs),
      ih (fun y hy => h y (List.mem_cons_of_mem x hy))]

/-- Claim C4 (counterexample): buffer [(0,0,0), (1,0,0)], anchor (0,0,0),
displacement d = (1,0,0).  The first move welds vertex 0 onto (1,0,0);
the second move's scan then also matches vertex 1, and both end at
(0,0,0): the buffer finishes as [(0,0,0), (0,0,0)], not its pre-drag
value. -/
theorem c4_counterexample :
    updateConnectedVertices
      (updateConnectedVertices [⟨0, 0, 0⟩, ⟨1, 0, 0⟩] ⟨0, 0, 0⟩
        (Vec3.add ⟨0, 0, 0⟩ ⟨1, 0, 0⟩))
      (Vec3.add ⟨0, 0, 0⟩ ⟨1, 0, 0⟩)
      (Vec3.add (Vec3.add ⟨0, 0, 0⟩ ⟨1, 0, 0⟩) (Vec3.neg ⟨1, 0, 0⟩))
      ≠ [⟨0, 0, 0⟩, ⟨1, 0, 0⟩] := by
  norm_num [updateConnectedVertices, Vec3.add, Vec3.neg, isCoincident, abs_lt, Vec3.mk.injEq]

/-- Claim C4 (amended): the round trip restores the buffer provided the
coincident group of the anchor is exactly at the anchor (the welding
write snaps near-coincident members onto the written position, so only
exactly-coincident groups can be restored) and the displaced position
a + d is not within tolerance of any vertex outside the group (otherwise
the second move absorbs it). -/
theorem c4_amended_roundtrip (buf : List Vec3) (a d : Vec3)
    (h1 : ∀ v ∈ buf, isCoincident a v = true → v = a)
    (h2 : ∀ v ∈ buf, isCoincident a v = false → isCoincident (Vec3.add a d) v = false) :
    updateConnectedVertices (updateConnectedVertices buf a (Vec3.add a d)) (Vec3.add a d)
      (Vec3.add (Vec3.add a d) (Vec3.neg d)) = buf := by
  rw [vec3_add_neg_cancel]
  unfold updateConnectedVertices
  rw [List.map_map]
  apply map_fixed_eq_self
  intro v hv
  by_cases hc : isCoincident a v = true
  · have hva : v = a := h1 v hv hc
    subst hva
    simp [Function.comp, hc, isCoincident_self]
  · have hcf : isCoincident a v = false := by simpa using hc
    simp [Function.comp, hcf, h2 v hv hcf]

theorem c4_amended_roundtrip_witness :
    (∀ v ∈ ([⟨0, 0, 0⟩, ⟨5, 0, 0⟩] : List Vec3),
      isCoincident ⟨0, 0, 0⟩ v = true → v = ⟨0, 0, 0⟩) ∧
    (∀ v ∈ ([⟨0, 0, 0⟩, ⟨5, 0, 0⟩] : List Vec3),
      isCoincident ⟨0, 0, 0⟩ v = false →
        isCoincident (Vec3.add ⟨0, 0, 0⟩ ⟨1, 0, 0⟩) v = false) ∧
    updateConnectedVertices
      (updateConnectedVertices [⟨0, 0, 0⟩, ⟨5, 0, 0⟩] ⟨0, 0, 0⟩
        (Vec3.add ⟨0, 0, 0⟩ ⟨1, 0, 0⟩))
      (Vec3.add ⟨0, 0, 0⟩ ⟨1, 0, 0⟩)
      (Vec3.add (Vec3.add ⟨0, 0, 0⟩ ⟨1, 0, 0⟩) (Vec3.neg ⟨1, 0, 0⟩))
      = [⟨0, 0, 0⟩, ⟨5, 0, 0⟩] := by
  have h1 : ∀ v ∈ ([⟨0, 0, 0⟩, ⟨5, 0, 0⟩] : List Vec3),
      isCoincident ⟨0, 0, 0⟩ v = true → v = ⟨0, 0, 0⟩ := by
    intro v hv
    rcases List.mem_cons.mp hv with rfl | hv2
    · intro _; rfl
    · rcases List.mem_cons.mp hv2 with rfl | hv3
      · intro hfalse
        norm_num [isCoincident, abs_lt] at hfalse
      · cases hv3
  have h2 : ∀ v ∈ ([⟨0, 0, 0⟩, ⟨5, 0, 0⟩] : List Vec3),
      isCoincident ⟨0, 0, 0⟩ v = false →
        isCoincident (Vec3.add ⟨0, 0, 0⟩ ⟨1, 0, 0⟩) v = false := by
    intro v hv
    rcases List.mem_cons.mp hv with rfl | hv2
    · intro hfalse
      norm_num [isCoincident, abs_lt] at hfalse
    · rcases List.mem_cons.mp hv2 with rfl | hv3
      · intro _
        norm_num [isCoincident, Vec3.add, abs_lt]
      · cases hv3
  exact ⟨h1, h2, c4_amended_roundtrip [⟨0, 0, 0⟩, ⟨5, 0, 0⟩] ⟨0, 0, 0⟩ ⟨1, 0, 0⟩ h1 h2⟩

/-! ### Structure of the deduplicating element picker -/

theorem dedupScan_mem_spec (vs : List Vec3) :
    ∀ (n : ℕ) (seen : List (ℤ × ℤ × ℤ)) (p : Vec3) (i : ℕ),
    (p, i) ∈ dedupScan n vs seen →
    n ≤ i ∧ vs[i - n]? = some p ∧ vertexKey p ∉ seen ∧
      ∀ j q, j < i - n → vs[j]? = some q → vertexKey q ≠ vertexKey p := by
  induction vs with
  | nil =>
    intro n seen p i h
    simp [dedupScan] at h
  | cons v rest ih =>
    intro n seen p i h
    simp only [dedupScan] at h
    by_cases hk : vertexKey v ∈ seen
    · rw [if_pos hk] at h
      obtain ⟨hni, hget, hnot, hmin⟩ := ih (n + 1) seen p i h
      have hin : n ≤ i := by omega
      have hsub : i - n = (i - (n + 1)) + 1 := by omega
      refine ⟨hin, ?_, hnot, ?_⟩
      · rw [hsub]
        simpa using hget
      · intro j q hj hq
        match j with
        | 0 =>
          have hq' : q = v := by simpa using hq.symm
          subst hq'
          exact fun hcontra => hnot (hcontra ▸ hk)
        | j' + 1 =>
          have hq' : rest[j']? = some q := by simpa using hq
          exact hmin j' q (by omega) hq'
    · rw [if_neg hk] at h
      rcases List.mem_cons.mp h with heq | hmem
      · have hp : p = v := congrArg Prod.fst heq
        have hi : i = n := congrArg Prod.snd heq
        subst hp
        subst hi
        refine ⟨le_refl _, by simp, hk, ?_⟩
        intro j q hj _
        exact absurd hj (by omega)
      · obtain ⟨hni, hget, hnot, hmin⟩ := ih (n + 1) (vertexKey v :: seen) p i hmem
        have hnot' : vertexKey p ∉ seen := fun hmem2 => hnot (List.mem_cons_of_mem _ hmem2)
        have hnev : vertexKey p ≠ vertexKey v := fun he => hnot (by rw [he]; exact List.mem_cons_self _ _)
        have hin : n ≤ i := by omega
        have hsub : i - n = (i - (n + 1)) + 1 := by omega
        refine ⟨hin, ?_, hnot', ?_⟩
        · rw [hsub]
          simpa using hget
        · intro j q hj hq
          match j with
          | 0 =>
            have hq' : q = v := by simpa using hq.symm
            subst hq'
            exact fun he => hnev he.symm
          | j' + 1 =>
            have hq' : rest[j']? = some q := by simpa using hq
            exact hmin j' q (by omega) hq'

theorem dedupScan_length (vs : List Vec3) :
    ∀ (n : ℕ) (seen : List (ℤ × ℤ × ℤ)),
    (dedupScan n vs seen).length = ((vs.map vertexKey).toFinset \ seen.toFinset).card := by
  induction vs with
  | nil =>
    intro n seen
    simp [dedupScan]
  | cons v rest ih =>
    intro n seen
    simp only [dedupScan]
    by_cases hk : vertexKey v ∈ seen
    · rw [if_pos hk, ih]
      congr 1
      ext x
      simp only [List.map_cons, List.toFinset_cons, Finset.mem_sdiff, Finset.mem_insert,
        List.mem_toFinset, List.mem_cons]
      constructor
      · rintro ⟨hx, hns⟩
        exact ⟨Or.inr hx, hns⟩
      · rintro ⟨hx | hx, hns⟩
        · rw [hx] at hns
          exact absurd hk hns
        · exact ⟨hx, hns⟩
    · rw [if_neg hk, List.length_cons, ih (n + 1) (vertexKey v :: seen)]
      have e1 : (List.map vertexKey rest).toFinset \ (vertexKey v :: seen).toFinset
          = ((List.map vertexKey rest).toFinset \ seen.toFinset).erase (vertexKey v) := by
        ext x
        simp only [Finset.mem_sdiff, List.toFinset_cons, Finset.mem_insert, Finset.mem_erase,
          List.mem_toFinset]
        constructor
        · rintro ⟨hx, hns⟩
          push_neg at hns
          exact ⟨hns.1, hx, hns.2⟩
        · rintro ⟨hne, hx, hns⟩
          exact ⟨hx, fun h => h.elim (fun h1 => hne h1) hns⟩
      have e2 : (List.map vertexKey (v :: rest)).toFinset \ seen.toFinset
          = insert (vertexKey v) ((List.map vertexKey rest).toFinset \ seen.toFinset) := by
        ext x
        simp only [List.map_cons, List.toFinset_cons, Finset.mem_sdiff, Finset.mem_insert,
          List.mem_toFinset, List.mem_cons]
        constructor
        · rintro ⟨hx | hx, hns⟩
          · exact Or.inl hx
          · exact Or.inr ⟨hx, hns⟩
        · rintro (hx | ⟨hx, hns⟩)
          · refine ⟨Or.inl hx, ?_⟩
            rw [hx]
            exact hk
          · exact ⟨Or.inr hx, hns⟩
      rw [e1, e2]
      by_cases hx : vertexKey v ∈ (List.map vertexKey rest).toFinset \ seen.toFinset
      · rw [Finset.insert_eq_self.mpr hx]
        exact Finset.card_erase_add_one hx
      · rw [Finset.card_insert_of_not_mem hx, Finset.erase_eq_of_not_mem hx]

/-- Claim C7 (counterexample): a two-entry buffer whose entries share one
position yields a single handle, not one handle per buffer entry. -/
theorem c7_counterexample :
    (uniqueVertices [⟨0, 0, 0⟩, ⟨0, 0, 0⟩] id).length
      ≠ ([⟨0, 0, 0⟩, ⟨0, 0, 0⟩] : List Vec3).length := by
  norm_num [uniqueVertices, dedupScan, vertexKey, toFixed4, round_eq]

/-- Claim C7 (amended): in vertex edit mode the picker produces exactly
one handle per distinct rounded (4-decimal) world position among the
buffer entries, and each handle's world position is the entry's local
position transformed by the mesh's world matrix (namely that of the
buffer entry whose index the handle retains). -/
theorem c7_amended_dedup (buf : List Vec3) (toWorld : Vec3 → Vec3) (p : Vec3) (i : ℕ)
    (hmem : (p, i) ∈ uniqueVertices buf toWorld) :
    (uniqueVertices buf toWorld).length = ((buf.map toWorld).map vertexKey).toFinset.card ∧
    (buf.map toWorld)[i]? = some p := by
  constructor
  · unfold uniqueVertices
    rw [dedupScan_length]
    simp
  · obtain ⟨-, hget, -, -⟩ := dedupScan_mem_spec (buf.map toWorld) 0 [] p i hmem
    simpa using hget

theorem c7_amended_dedup_witness :
    ((⟨0, 0, 0⟩, 0) : Vec3 × ℕ) ∈ uniqueVertices [⟨0, 0, 0⟩, ⟨0, 0, 0⟩] id ∧
    ((uniqueVertices [⟨0, 0, 0⟩, ⟨0, 0, 0⟩] id).length
        = (([⟨0, 0, 0⟩, ⟨0, 0, 0⟩] : List Vec3).map id |>.map vertexKey).toFinset.card ∧
      (([⟨0, 0, 0⟩, ⟨0, 0, 0⟩] : List Vec3).map id)[0]? = some ⟨0, 0, 0⟩) := by
  have hmem : ((⟨0, 0, 0⟩, 0) : Vec3 × ℕ) ∈ uniqueVertices [⟨0, 0, 0⟩, ⟨0, 0, 0⟩] id := by
    norm_num [uniqueVertices, dedupScan, vertexKey, toFixed4, round_eq]
  exact ⟨hmem, c7_amended_dedup [⟨0, 0, 0⟩, ⟨0, 0, 0⟩] id ⟨0, 0, 0⟩ 0 hmem⟩

/-- Claim C10: the buffer index a deduplicated handle retains is minimal
among the indices of all buffer entries sharing its rounded world
position, i.e. the first index the ascending scan encountered. -/
theorem c10_dedup_keeps_min_index (buf : List Vec3) (toWorld : Vec3 → Vec3) (p : Vec3) (i : ℕ)
    (hmem : (p, i) ∈ uniqueVertices buf toWorld) (j : ℕ) (q : Vec3)
    (hq : buf[j]? = some q) (hkey : vertexKey (toWorld q) = vertexKey p) : i ≤ j := by
  obtain ⟨-, -, -, hmin⟩ := dedupScan_mem_spec (buf.map toWorld) 0 [] p i hmem
  by_contra hlt
  push_neg at hlt
  exact hmin j (toWorld q) (by omega) (by simp [List.getElem?_map, hq]) hkey

theorem c10_dedup_keeps_min_index_witness :
    ((⟨0, 0, 0⟩, 0) : Vec3 × ℕ) ∈ uniqueVertices [⟨0, 0, 0⟩, ⟨0, 0, 0⟩] id ∧
    ([⟨0, 0, 0⟩, ⟨0, 0, 0⟩] : List Vec3)[1]? = some ⟨0, 0, 0⟩ ∧
    vertexKey (id (⟨0, 0, 0⟩ : Vec3)) = vertexKey ⟨0, 0, 0⟩ ∧
    (0 : ℕ) ≤ 1 := by
  have hmem : ((⟨0, 0, 0⟩, 0) : Vec3 × ℕ) ∈ uniqueVertices [⟨0, 0, 0⟩, ⟨0, 0, 0⟩] id := by
    norm_num [uniqueVertices, dedupScan, vertexKey, toFixed4, round_eq]
  exact ⟨hmem, rfl, rfl,
    c10_dedup_keeps_min_index [⟨0, 0, 0⟩, ⟨0, 0, 0⟩] id ⟨0, 0, 0⟩ 0 hmem 1 ⟨0, 0, 0⟩ rfl rfl⟩

/-! ### Orbit-controls suspension during a drag session -/

theorem handleEvt_editMode (worldToLocal : Vec3 → Vec3) (st : SceneState) (e : PointerEvt) :
    (handleEvt worldToLocal st e).editMode = st.editMode := by
  cases e <;> simp only [handleEvt] <;> split <;> rfl

theorem applyEvts_editMode (worldToLocal : Vec3 → Vec3) (es : List PointerEvt) :
    ∀ st, (applyEvts worldToLocal st es).editMode = st.editMode := by
  induction es with
  | nil => intro st; rfl
  | cons e es ih =>
    intro st
    simp only [applyEvts]
    rw [ih, handleEvt_editMode]

theorem onPointerMove_keeps_anchor (selected : Bool) (ray : Three.Ray)
    (cameraPosition position : Vec3) (worldToLocal : Vec3 → Vec3) (s : DragState) (m : MeshState)
    (h : s.dragStart.isSome = true) :
    (DraggableVertex.onPointerMove selected ray cameraPosition position worldToLocal
      s m).1.dragStart.isSome = true := by
  cases hd : s.dragStart with
  | none =>
    rw [hd] at h
    simp at h
  | some a => cases selected <;> simp [DraggableVertex.onPointerMove, hd]

theorem applyEvts_moves_keep_anchor (worldToLocal : Vec3 → Vec3) (es : List PointerEvt) :
    ∀ st, (∀ e ∈ es, PointerEvt.isMove e = true) → st.drag.dragStart.isSome = true →
      (applyEvts worldToLocal st es).drag.dragStart.isSome = true := by
  induction es with
  | nil =>
    intro st _ h
    exact h
  | cons e es ih =>
    intro st hm h
    have he : PointerEvt.isMove e = true := hm e (List.mem_cons_self e es)
    simp only [applyEvts]
    apply ih
    · intro x hx
      exact hm x (List.mem_cons_of_mem e hx)
    · cases e with
      | move sel r c p =>
        by_cases hv : st.editMode = EditMode.vertex
        · simp only [handleEvt, if_pos hv]
          exact onPointerMove_keeps_anchor sel r c p worldToLocal st.drag st.mesh h
        · simp only [handleEvt, if_neg hv]
          exact h
      | press sel p => simp [PointerEvt.isMove] at he
      | release => simp [PointerEvt.isMove] at he

/-- Claim C8: pressing a selected handle in vertex edit mode starts a
drag session capturing the anchor; at every state while the session's
move events are processed, the session is live and the OrbitControls
enabled prop is false (orbit navigation suspended, the prop being gated
on object mode which cannot hold during a vertex drag); the release ends
the session, writes true back to the controls' enabled toggle, and the
mode-gated enabled prop equals its pre-session value, so orbit
navigation is restored to the state it had before the session. -/
theorem c8_orbit_suspended_during_drag (st0 : SceneState) (worldToLocal : Vec3 → Vec3)
    (anchor : Vec3) (evts : List PointerEvt)
    (hmode : st0.editMode = EditMode.vertex)
    (hmoves : ∀ e ∈ evts, PointerEvt.isMove e = true) :
    (handleEvt worldToLocal st0 (PointerEvt.press true anchor)).drag.dragStart = some anchor ∧
    (∀ pre suf, evts = pre ++ suf →
      orbitControlsEnabled
        (applyEvts worldToLocal
          (handleEvt worldToLocal st0 (PointerEvt.press true anchor)) pre).editMode = false ∧
      (applyEvts worldToLocal
        (handleEvt worldToLocal st0 (PointerEvt.press true anchor)) pre).drag.dragStart.isSome
        = true) ∧
    (handleEvt worldToLocal
      (applyEvts worldToLocal (handleEvt worldToLocal st0 (PointerEvt.press true anchor)) evts)
      PointerEvt.release).drag.dragStart = none ∧
    (handleEvt worldToLocal
      (applyEvts worldToLocal (handleEvt worldToLocal st0 (PointerEvt.press true anchor)) evts)
      PointerEvt.release).drag.orbitEnabled = true ∧
    orbitControlsEnabled
      (handleEvt worldToLocal
        (applyEvts worldToLocal (handleEvt worldToLocal st0 (PointerEvt.press true anchor)) evts)
        PointerEvt.release).editMode
      = orbitControlsEnabled st0.editMode := by
  have hst1 : handleEvt worldToLocal st0 (PointerEvt.press true anchor)
      = ⟨st0.editMode, ⟨some anchor, false⟩, st0.mesh⟩ := by
    simp [handleEvt, hmode, DraggableVertex.onPointerDown]
  have hmodeMid : ∀ pre : List PointerEvt,
      (applyEvts worldToLocal
        (handleEvt worldToLocal st0 (PointerEvt.press true anchor)) pre).editMode
        = EditMode.vertex := by
    intro pre
    rw [applyEvts_editMode, handleEvt_editMode, hmode]
  refine ⟨?_, ?_, ?_, ?_, ?_⟩
  · rw [hst1]
  · intro pre suf heq
    constructor
    · rw [hmodeMid pre]
      rfl
    · apply applyEvts_moves_keep_anchor
      · intro e he
        exact hmoves e (heq ▸ List.mem_append_left suf he)
      · rw [hst1]
        rfl
  · have hv := hmodeMid evts
    revert hv
    generalize applyEvts worldToLocal
      (handleEvt worldToLocal st0 (PointerEvt.press true anchor)) evts = stMid
    intro hv
    simp [handleEvt, hv, DraggableVertex.onPointerUp]
  · have hv := hmodeMid evts
    revert hv
    generalize applyEvts worldToLocal
      (handleEvt worldToLocal st0 (PointerEvt.press true anchor)) evts = stMid
    intro hv
    simp [handleEvt, hv, DraggableVertex.onPointerUp]
  · rw [handleEvt_editMode, applyEvts_editMode, handleEvt_editMode]

theorem c8_orbit_suspended_witness :
    (SceneState.editMode ⟨EditMode.vertex, ⟨none, true⟩, ⟨[⟨0, 0, 0⟩], 0⟩⟩ = EditMode.vertex) ∧
    (∀ e ∈ ([] : List PointerEvt), PointerEvt.isMove e = true) ∧
    (handleEvt id ⟨EditMode.vertex, ⟨none, true⟩, ⟨[⟨0, 0, 0⟩], 0⟩⟩
      (PointerEvt.press true ⟨0, 0, 0⟩)).drag.dragStart = some ⟨0, 0, 0⟩ ∧
    (handleEvt id
      (applyEvts id
        (handleEvt id ⟨EditMode.vertex, ⟨none, true⟩, ⟨[⟨0, 0, 0⟩], 0⟩⟩
          (PointerEvt.press true ⟨0, 0, 0⟩)) [])
      PointerEvt.release).drag.orbitEnabled = true := by
  have hmoves : ∀ e ∈ ([] : List PointerEvt), PointerEvt.isMove e = true := by
    intro e he
    cases he
  obtain ⟨h1, -, -, h4, -⟩ := c8_orbit_suspended_during_drag
    ⟨EditMode.vertex, ⟨none, true⟩, ⟨[⟨0, 0, 0⟩], 0⟩⟩ id ⟨0, 0, 0⟩ [] rfl hmoves
  exact ⟨rfl, hmoves, h1, h4⟩
